import Mathlib

/-!
# Verification of the particle simulation core

Shallow embedding of the particle simulation (`src/main.cpp`): the
`Particle` state-update algorithm (gravity, speed clamp, integration,
boundary bounce), the O(n²) pairwise force pass of `ParticleSystem::update`,
connection-list regeneration, and mouse spawning.  C++ `float` arithmetic is
idealised as real arithmetic (`ℝ`), `std::sqrt` as `Real.sqrt`.
-/

noncomputable section

namespace PSim

/-- Simulation area width (`const int WIDTH = 1200`). -/
def WIDTH : ℝ := 1200

/-- Simulation area height (`const int HEIGHT = 800`). -/
def HEIGHT : ℝ := 800

/-- Gravitational acceleration (`const float GRAVITY = 9.81f`). -/
def GRAVITY : ℝ := 9.81

/-- Bounce damping factor (`const float DAMPING = 0.99f`). -/
def DAMPING : ℝ := 0.99

/-- Attraction constant (`const float ATTRACTION = 50.0f`). -/
def ATTRACTION : ℝ := 50

/-- Repulsion constant (`const float REPULSION = 10.0f`). -/
def REPULSION : ℝ := 10

/-- Maximum speed (`const float MAX_SPEED = 500.0f`). -/
def MAX_SPEED : ℝ := 500

/-- Largest value returned by `rand()` (`RAND_MAX` of the C library). -/
def RAND_MAX : ℕ := 2147483647

/-- Two-dimensional vector (`sf::Vector2f`). -/
@[ext]
structure Vec2 where
  x : ℝ
  y : ℝ

/-- Euclidean norm of a 2D vector, as computed in the source:
`std::sqrt(v.x * v.x + v.y * v.y)`. -/
def Vec2.norm (v : Vec2) : ℝ := Real.sqrt (v.x * v.x + v.y * v.y)

/-- Particle state (class `Particle`): position, velocity, radius, stored
base color (RGB bytes) and mass. -/
@[ext]
structure Particle where
  position : Vec2
  velocity : Vec2
  radius : ℝ
  baseColor : ℕ × ℕ × ℕ
  mass : ℝ

/-- Constructor `Particle(float x, float y, float r)`: position `(x, y)`,
velocity `(0, 0)`, radius `r`, mass `r * r`, and base color
`(rand() % 255, rand() % 255, rand() % 255)` from three draws `c1 c2 c3`. -/
def Particle.create (x y r : ℝ) (c1 c2 c3 : ℕ) : Particle :=
  { position := ⟨x, y⟩
    velocity := ⟨0, 0⟩
    radius := r
    baseColor := (c1 % 255, c2 % 255, c3 % 255)
    mass := r * r }

/-- Speed clamp (`Particle::limitVelocity`): if the speed exceeds
`MAX_SPEED`, rescale the vector to length `MAX_SPEED`; otherwise return
it unchanged. -/
def limitVelocity (vel : Vec2) : Vec2 :=
  if Real.sqrt (vel.x * vel.x + vel.y * vel.y) > MAX_SPEED then
    ⟨vel.x / Real.sqrt (vel.x * vel.x + vel.y * vel.y) * MAX_SPEED,
     vel.y / Real.sqrt (vel.x * vel.x + vel.y * vel.y) * MAX_SPEED⟩
  else vel

/-- Per-step integration (`Particle::update`): gravity on `velocity.y`,
speed clamp, position integration, then the per-axis boundary checks with
inelastic bounce (clamp to the boundary, negate and damp the velocity
component). -/
def Particle.update (p : Particle) (dt : ℝ) : Particle :=
  let v2 : Vec2 := limitVelocity ⟨p.velocity.x, p.velocity.y + GRAVITY * dt⟩
  let px : ℝ := p.position.x + v2.x * dt
  let py : ℝ := p.position.y + v2.y * dt
  let bx : ℝ × ℝ :=
    if px - p.radius < 0 then (p.radius, -v2.x * DAMPING)
    else if px + p.radius > WIDTH then (WIDTH - p.radius, -v2.x * DAMPING)
    else (px, v2.x)
  let by' : ℝ × ℝ :=
    if py - p.radius < 0 then (p.radius, -v2.y * DAMPING)
    else if py + p.radius > HEIGHT then (HEIGHT - p.radius, -v2.y * DAMPING)
    else (py, v2.y)
  { p with position := ⟨bx.1, by'.1⟩, velocity := ⟨bx.2, by'.2⟩ }

/-- Impulse application (`Particle::applyForce`):
`velocity += force * (dt / mass)`. -/
def Particle.applyForce (p : Particle) (force : Vec2) (dt : ℝ) : Particle :=
  { p with velocity := ⟨p.velocity.x + force.x * (dt / p.mass),
                        p.velocity.y + force.y * (dt / p.mass)⟩ }

/-- Center distance used in the force pass of `ParticleSystem::update`:
`direction = other.position - particle.position`,
`distance = sqrt(direction.x² + direction.y²)`. -/
def distTo (p q : Vec2) : ℝ :=
  Real.sqrt ((q.x - p.x) * (q.x - p.x) + (q.y - p.y) * (q.y - p.y))

/-- Force the pairwise pass passes to `applyForce` for an ordered pair of
distinct particles: under the guard `distance > 0 && distance < 100` the
vector `(direction / distance) * strength` with
`strength = ATTRACTION / distance² - REPULSION / distance`; otherwise no
call to `applyForce` happens (`none`). -/
def appliedPairForce (p other : Particle) : Option Vec2 :=
  if 0 < distTo p.position other.position ∧ distTo p.position other.position < 100 then
    some
      ⟨(other.position.x - p.position.x) / distTo p.position other.position *
         (ATTRACTION / (distTo p.position other.position * distTo p.position other.position) -
          REPULSION / distTo p.position other.position),
       (other.position.y - p.position.y) / distTo p.position other.position *
         (ATTRACTION / (distTo p.position other.position * distTo p.position other.position) -
          REPULSION / distTo p.position other.position)⟩
  else none

/-- Effect of one inner-loop iteration of the force pass on the acting
particle `p`: apply the pairwise force from `other` when the distance guard
holds, otherwise leave `p` unchanged. -/
def forceStep (p other : Particle) (dt : ℝ) : Particle :=
  match appliedPairForce p other with
  | some F => p.applyForce F dt
  | none => p

/-- Inner loop of the force pass: iterate over the remaining elements of
the particle vector (starting at index `j`), skipping the acting particle
itself (the `&particle != &other` address check, index `i`), and fold the
force applications into the acting particle `p`. -/
def forcesAux (i : ℕ) (dt : ℝ) : Particle → ℕ → List Particle → Particle
  | p, _, [] => p
  | p, j, q :: rest => forcesAux i dt (if j = i then p else forceStep p q dt) (j + 1) rest

/-- Full inner loop of the force pass for the acting particle `p` at
index `i` against the current particle vector `ps`. -/
def forcesOn (p : Particle) (i : ℕ) (ps : List Particle) (dt : ℝ) : Particle :=
  forcesAux i dt p 0 ps

/-- One iteration of the outer loop of `ParticleSystem::update`: the acting
particle at index `i` receives all pairwise forces computed against the
live (current) vector, then is immediately integrated by
`Particle::update(dt)` and written back in place. -/
def stepAt (dt : ℝ) (ps : List Particle) (i : ℕ) : List Particle :=
  match ps.get? i with
  | some p => ps.set i (Particle.update (forcesOn p i ps dt) dt)
  | none => ps

/-- Outer loop of `ParticleSystem::update`: run `n` iterations of `stepAt`
with ascending index starting at `i`, each acting on the vector left by the
previous iteration. -/
def loopFrom (dt : ℝ) (ps : List Particle) (i : ℕ) : ℕ → List Particle
  | 0 => ps
  | n + 1 => loopFrom dt (stepAt dt ps i) (i + 1) n

/-- Particle phase of `ParticleSystem::update(dt)`: the range-for over the
particle vector, where each particle in collection order receives its
pairwise forces (from live state) and is then integrated in place. -/
def sysUpdateParticles (ps : List Particle) (dt : ℝ) : List Particle :=
  loopFrom dt ps 0 ps.length

/-- Center distance as computed in `ParticleSystem::updateConnections`:
`sqrt(pow(pi.x - pj.x, 2) + pow(pi.y - pj.y, 2))`. -/
def connDist (p q : Vec2) : ℝ :=
  Real.sqrt ((p.x - q.x) ^ 2 + (p.y - q.y) ^ 2)

/-- Connection alpha: `static_cast<sf::Uint8>(255 * (1 - distance / 100))`,
i.e. truncation of the real value to an unsigned byte (for the distances in
`[0, 100)` at which it is evaluated, truncation toward zero = floor). -/
def alphaOf (d : ℝ) : ℕ := (⌊255 * (1 - d / 100)⌋).toNat

/-- Vertex of the connection vertex array: a position and an RGBA color. -/
@[ext]
structure Vertex where
  pos : Vec2
  color : ℕ × ℕ × ℕ × ℕ

/-- Vertices appended for one visited pair in
`ParticleSystem::updateConnections`: if the distance is below 100, two
vertices at the particles' positions, both white with alpha
`alphaOf distance`; otherwise nothing. -/
def connSeg (p q : Vec2) : List Vertex :=
  if connDist p q < 100 then
    [⟨p, (255, 255, 255, alphaOf (connDist p q))⟩,
     ⟨q, (255, 255, 255, alphaOf (connDist p q))⟩]
  else []

/-- Connection regeneration (`ParticleSystem::updateConnections`): clear
the vertex array and, for every pair of indices `i < j` in order, append
the pair's connection vertices.  The double index loop
`for i; for j = i+1` visits, for each head particle in turn, all later
particles, which is the recursion below. -/
def updateConnections : List Particle → List Vertex
  | [] => []
  | p :: rest => (rest.map fun q => connSeg p.position q.position).flatten ++ updateConnections rest

/-- State of `ParticleSystem`: the particle vector and the connection
vertex array. -/
structure ParticleSystem where
  particles : List Particle
  connections : List Vertex

/-- Full `ParticleSystem::update(dt)`: the interleaved force/integration
pass over the particle vector, then connection regeneration. -/
def ParticleSystem.update (s : ParticleSystem) (dt : ℝ) : ParticleSystem :=
  { particles := sysUpdateParticles s.particles dt
    connections := updateConnections (sysUpdateParticles s.particles dt) }

/-- Particle spawned by iteration `i` of
`ParticleSystem::addParticlesAtMouse`, with `rng` the stream of successive
`rand()` results: `angle = rand()/RAND_MAX * 2π`,
`distance = rand()/RAND_MAX * 50`, position `mousePos + (cos, sin) * distance`,
radius `3 + rand()/RAND_MAX * 5`; the constructor then draws three more
values for the base color.  Each iteration consumes six draws. -/
def spawnOne (rng : ℕ → ℕ) (mousePos : Vec2) (i : ℕ) : Particle :=
  Particle.create
    (mousePos.x + Real.cos ((rng (6 * i) : ℝ) / (RAND_MAX : ℝ) * (2 * Real.pi)) *
       ((rng (6 * i + 1) : ℝ) / (RAND_MAX : ℝ) * 50))
    (mousePos.y + Real.sin ((rng (6 * i) : ℝ) / (RAND_MAX : ℝ) * (2 * Real.pi)) *
       ((rng (6 * i + 1) : ℝ) / (RAND_MAX : ℝ) * 50))
    (3 + (rng (6 * i + 2) : ℝ) / (RAND_MAX : ℝ) * 5)
    (rng (6 * i + 3)) (rng (6 * i + 4)) (rng (6 * i + 5))

/-- `ParticleSystem::addParticlesAtMouse(mousePos, count)`: append `count`
spawned particles to the vector, in loop order. -/
def addParticlesAtMouse (ps : List Particle) (rng : ℕ → ℕ) (mousePos : Vec2)
    (count : ℕ) : List Particle :=
  ps ++ (List.range count).map (spawnOne rng mousePos)

/-! ## Definitions following the specification's wording

These are stated from the spec / claim text, to be compared with the
definitions above that embed the source. -/

/-- Spec step (1) of `Particle.update`: `velocity.y += GRAVITY * dt`. -/
def specGravityStep (p : Particle) (dt : ℝ) : Particle :=
  { p with velocity := ⟨p.velocity.x, p.velocity.y + GRAVITY * dt⟩ }

/-- Spec step (2) of `Particle.update`: clamp the velocity magnitude to
`MAX_SPEED`, rescaling to max length while preserving direction; no-op when
the speed does not exceed the maximum. -/
def specClampStep (p : Particle) : Particle :=
  { p with velocity :=
      if MAX_SPEED < Vec2.norm p.velocity then
        ⟨p.velocity.x * (MAX_SPEED / Vec2.norm p.velocity),
         p.velocity.y * (MAX_SPEED / Vec2.norm p.velocity)⟩
      else p.velocity }

/-- Spec step (3) of `Particle.update`: `position += velocity * dt`. -/
def specIntegrateStep (p : Particle) (dt : ℝ) : Particle :=
  { p with position := ⟨p.position.x + p.velocity.x * dt,
                        p.position.y + p.velocity.y * dt⟩ }

/-- Spec step (4) of `Particle.update`: per-axis boundary check — if the
position minus the radius is below 0 (or plus the radius exceeds
`WIDTH`/`HEIGHT`), clamp the position exactly to that boundary and replace
the corresponding velocity component by its negation scaled by `DAMPING`;
the two axes are checked independently. -/
def specBounceStep (p : Particle) : Particle :=
  { p with
    position :=
      ⟨if p.position.x - p.radius < 0 then p.radius
        else if p.position.x + p.radius > WIDTH then WIDTH - p.radius
        else p.position.x,
       if p.position.y - p.radius < 0 then p.radius
        else if p.position.y + p.radius > HEIGHT then HEIGHT - p.radius
        else p.position.y⟩
    velocity :=
      ⟨if p.position.x - p.radius < 0 then -p.velocity.x * DAMPING
        else if p.position.x + p.radius > WIDTH then -p.velocity.x * DAMPING
        else p.velocity.x,
       if p.position.y - p.radius < 0 then -p.velocity.y * DAMPING
        else if p.position.y + p.radius > HEIGHT then -p.velocity.y * DAMPING
        else p.velocity.y⟩ }

/-- Force phase of the two-phase algorithm described by claim C1: every
particle receives all its pairwise forces computed against the frozen
snapshot `frozen` of the collection, before any particle is integrated. -/
def twoPhasePass (dt : ℝ) (frozen : List Particle) : ℕ → List Particle → List Particle
  | _, [] => []
  | i, p :: rest => forcesOn p i frozen dt :: twoPhasePass dt frozen (i + 1) rest

/-- Two-phase update algorithm described by claim C1: first all pairwise
forces are applied to every particle (against the frozen initial state),
and only then is `Particle.update(dt)` called on every particle in
collection order. -/
def twoPhaseUpdate (ps : List Particle) (dt : ℝ) : List Particle :=
  (twoPhasePass dt ps 0 ps).map (fun p => p.update dt)

/-- Interleaved pass, as worded by the amended claim: particles are
processed in collection order; the acting particle receives all pairwise
forces from the live state (already-updated earlier particles `done`,
not-yet-updated later particles `todo`) and is then immediately
integrated, before the next particle's forces are computed. -/
def interleavePass (dt : ℝ) : List Particle → List Particle → List Particle
  | done, [] => done
  | done, p :: todo =>
      interleavePass dt
        (done ++ [Particle.update
          (todo.foldl (fun a q => forceStep a q dt)
            (done.foldl (fun a q => forceStep a q dt) p)) dt])
        todo

/-- Connection list as described by the spec: a pure function of the
current particle positions — for every unordered pair `i < j` of positions
within distance 100, one line segment between the two positions, both
endpoints white with the identical alpha. -/
def specConnections : List Vec2 → List Vertex
  | [] => []
  | v :: rest => (rest.map fun w => connSeg v w).flatten ++ specConnections rest

/-- Containment-plus-speed condition under which `update(0)` is a no-op. -/
def calmParticle (p : Particle) : Prop :=
  Vec2.norm p.velocity ≤ MAX_SPEED ∧
  p.radius ≤ p.position.x ∧ p.position.x ≤ WIDTH - p.radius ∧
  p.radius ≤ p.position.y ∧ p.position.y ≤ HEIGHT - p.radius

/-- Immutable part of a particle: radius, base color and mass. -/
def immut (p : Particle) : ℝ × (ℕ × ℕ × ℕ) × ℝ := (p.radius, p.baseColor, p.mass)

/-- First particle of the C1 counterexample: at `(600, 300)`, at rest,
radius 1, mass 1. -/
def cexP0 : Particle := ⟨⟨600, 300⟩, ⟨0, 0⟩, 1, (0, 0, 0), 1⟩

/-- Second particle of the C1 counterexample: at `(600, 310)`, at rest,
radius 1, mass 1 (10 units above the first, inside interaction range). -/
def cexP1 : Particle := ⟨⟨600, 310⟩, ⟨0, 0⟩, 1, (0, 0, 0), 1⟩

/-- `cexP0` after receiving its pairwise force from `cexP1`. -/
def cexP0a : Particle := ⟨⟨600, 300⟩, ⟨0, -(1/2)⟩, 1, (0, 0, 0), 1⟩

/-- `cexP0a` after integration with `dt = 1`. -/
def cexP0u : Particle := ⟨⟨600, 309.31⟩, ⟨0, 9.31⟩, 1, (0, 0, 0), 1⟩

/-- `cexP1` after receiving its force from the already-updated `cexP0u`
(live state, distance 0.69), as the interleaved source code computes it. -/
def cexP1a : Particle := ⟨⟨600, 310⟩, ⟨0, -(431000/4761)⟩, 1, (0, 0, 0), 1⟩

/-- `cexP1a` after integration with `dt = 1`. -/
def cexP1u : Particle :=
  ⟨⟨600, 109161541/476100⟩, ⟨0, -(38429459/476100)⟩, 1, (0, 0, 0), 1⟩

/-- `cexP1` after receiving its force from the frozen `cexP0` (distance
10), as the claimed two-phase algorithm computes it. -/
def cexP1b : Particle := ⟨⟨600, 310⟩, ⟨0, 1/2⟩, 1, (0, 0, 0), 1⟩

/-- `cexP1b` after integration with `dt = 1`. -/
def cexP1v : Particle := ⟨⟨600, 320.31⟩, ⟨0, 10.31⟩, 1, (0, 0, 0), 1⟩

/-! ## Helper lemmas -/

/-- Square-root evaluation at a perfect square. -/
lemma sqrt_eval {a b : ℝ} (hb : 0 ≤ b) (h : b * b = a) : Real.sqrt a = b := by
  rw [← h, Real.sqrt_mul_self hb]

/-- A velocity whose squared speed is at most `MAX_SPEED²` is left
unchanged by the clamp. -/
lemma limit_id (v : Vec2) (h : v.x * v.x + v.y * v.y ≤ MAX_SPEED * MAX_SPEED) :
    limitVelocity v = v := by
  have h1 : Real.sqrt (v.x * v.x + v.y * v.y) ≤ MAX_SPEED := by
    have h2 := Real.sqrt_le_sqrt h
    rwa [Real.sqrt_mul_self (by norm_num [MAX_SPEED])] at h2
  exact if_neg (not_lt.2 h1)

/-- Norm of a componentwise-scaled vector. -/
lemma norm_scaled (x y c : ℝ) :
    Vec2.norm ⟨x * c, y * c⟩ = Vec2.norm ⟨x, y⟩ * |c| := by
  unfold Vec2.norm
  have h : x * c * (x * c) + y * c * (y * c) = (x * x + y * y) * (c * c) := by ring
  rw [h, Real.sqrt_mul (add_nonneg (mul_self_nonneg x) (mul_self_nonneg y)),
    Real.sqrt_mul_self_eq_abs]

/-- The clamp rewritten in the spec's form: rescale by the positive factor
`MAX_SPEED / speed` when the speed exceeds `MAX_SPEED`. -/
lemma limit_eq_clamp (v : Vec2) :
    limitVelocity v =
      if MAX_SPEED < Vec2.norm v then
        ⟨v.x * (MAX_SPEED / Vec2.norm v), v.y * (MAX_SPEED / Vec2.norm v)⟩
      else v := by
  unfold limitVelocity Vec2.norm
  split_ifs with h
  · exact Vec2.ext (by ring) (by ring)
  · rfl

/-- The clamped velocity never exceeds `MAX_SPEED` in magnitude. -/
lemma norm_limitVelocity_le (v : Vec2) : Vec2.norm (limitVelocity v) ≤ MAX_SPEED := by
  rw [limit_eq_clamp]
  split_ifs with h
  · have hpos : 0 < Vec2.norm v := lt_trans (by norm_num [MAX_SPEED]) h
    have hfac : 0 < MAX_SPEED / Vec2.norm v :=
      div_pos (by norm_num [MAX_SPEED]) hpos
    rw [norm_scaled, abs_of_pos hfac,
      show (⟨v.x, v.y⟩ : Vec2) = v from rfl,
      mul_div_cancel₀ MAX_SPEED (ne_of_gt hpos)]
  · exact le_of_not_lt h

/-- Componentwise absolute-value domination gives norm domination. -/
lemma norm_le_of_abs_le {a b a' b' : ℝ} (ha : |a'| ≤ |a|) (hb : |b'| ≤ |b|) :
    Vec2.norm ⟨a', b'⟩ ≤ Vec2.norm ⟨a, b⟩ := by
  unfold Vec2.norm
  apply Real.sqrt_le_sqrt
  have h1 : a' * a' ≤ a * a := by
    calc a' * a' = |a'| * |a'| := (abs_mul_abs_self a').symm
      _ ≤ |a| * |a| := mul_self_le_mul_self (abs_nonneg a') ha
      _ = a * a := abs_mul_abs_self a
  have h2 : b' * b' ≤ b * b := by
    calc b' * b' = |b'| * |b'| := (abs_mul_abs_self b').symm
      _ ≤ |b| * |b| := mul_self_le_mul_self (abs_nonneg b') hb
      _ = b * b := abs_mul_abs_self b
  linarith

/-- Damping a negated component shrinks its absolute value. -/
lemma abs_damp_le (a : ℝ) : |-a * DAMPING| ≤ |a| := by
  rw [abs_mul, abs_neg]
  calc |a| * |DAMPING| ≤ |a| * 1 := by
        apply mul_le_mul_of_nonneg_left _ (abs_nonneg a)
        rw [abs_of_pos (by norm_num [DAMPING] : (0:ℝ) < DAMPING)]
        norm_num [DAMPING]
    _ = |a| := mul_one _

/-- Decomposition of the source `Particle::update` into the four spec
steps. -/
lemma update_decomp (p : Particle) (dt : ℝ) :
    p.update dt =
      specBounceStep (specIntegrateStep (specClampStep (specGravityStep p dt)) dt) := by
  obtain ⟨⟨px, py⟩, ⟨vx, vy⟩, r, c, m⟩ := p
  simp only [Particle.update, specGravityStep, specClampStep, specIntegrateStep,
    specBounceStep, limit_eq_clamp, Vec2.norm]
  apply Particle.ext <;> try rfl
  · apply Vec2.ext <;> split_ifs <;> rfl
  · apply Vec2.ext <;> split_ifs <;> rfl

/-- C2: for every particle and every `dt`, `Particle.update(dt)` performs,
in order, (1) gravity `velocity.y += GRAVITY * dt`, (2) a clamp of the
velocity magnitude to `MAX_SPEED` that rescales by the positive factor
`MAX_SPEED / speed` (preserving direction, resulting magnitude exactly
`MAX_SPEED`) and is a no-op whenever the speed — including speed 0 — does
not exceed the maximum, (3) integration `position += velocity * dt`, and
(4) the independent per-axis boundary clamp with velocity negation scaled
by `DAMPING`. -/
theorem particle_update_step_order :
    (∀ (p : Particle) (dt : ℝ),
      p.update dt =
        specBounceStep (specIntegrateStep (specClampStep (specGravityStep p dt)) dt)) ∧
    (∀ v : Vec2, Vec2.norm v ≤ MAX_SPEED → limitVelocity v = v) ∧
    (∀ v : Vec2, MAX_SPEED < Vec2.norm v →
      limitVelocity v =
          ⟨v.x * (MAX_SPEED / Vec2.norm v), v.y * (MAX_SPEED / Vec2.norm v)⟩ ∧
        0 < MAX_SPEED / Vec2.norm v ∧
        Vec2.norm (limitVelocity v) = MAX_SPEED) := by
  refine ⟨update_decomp, ?_, ?_⟩
  · intro v h
    rw [limit_eq_clamp, if_neg (not_lt.2 h)]
  · intro v h
    have hpos : 0 < Vec2.norm v := lt_trans (by norm_num [MAX_SPEED]) h
    have hfac : 0 < MAX_SPEED / Vec2.norm v :=
      div_pos (by norm_num [MAX_SPEED]) hpos
    have heq : limitVelocity v =
        ⟨v.x * (MAX_SPEED / Vec2.norm v), v.y * (MAX_SPEED / Vec2.norm v)⟩ := by
      rw [limit_eq_clamp, if_pos h]
    refine ⟨heq, hfac, ?_⟩
    rw [heq, norm_scaled, abs_of_pos hfac,
      show (⟨v.x, v.y⟩ : Vec2) = v from rfl,
      mul_div_cancel₀ MAX_SPEED (ne_of_gt hpos)]

/-- Witness for `particle_update_step_order`: the clamp is a no-op on the
velocity `(3, 4)` of magnitude `5 ≤ MAX_SPEED`. -/
theorem particle_update_step_order_witness :
    limitVelocity ⟨3, 4⟩ = ⟨3, 4⟩ := by
  apply particle_update_step_order.2.1 ⟨3, 4⟩
  unfold Vec2.norm
  rw [show ((3:ℝ) * 3 + 4 * 4) = 5 * 5 by norm_num, Real.sqrt_mul_self (by norm_num)]
  norm_num [MAX_SPEED]

/-- C4: for every particle and every `dt ≥ 0`, the velocity magnitude is at
most `MAX_SPEED` immediately after the clamp step of `Particle.update(dt)`
(post-clamp, pre-bounce), and the bound still holds for the velocity at the
end of `update(dt)`, because the bounce only negates components and scales
them by `DAMPING < 1`. -/
theorem velocity_clamp_invariant (p : Particle) (dt : ℝ) (_hdt : 0 ≤ dt) :
    Vec2.norm (limitVelocity ⟨p.velocity.x, p.velocity.y + GRAVITY * dt⟩) ≤ MAX_SPEED ∧
    Vec2.norm ((p.update dt).velocity) ≤ MAX_SPEED := by
  refine ⟨norm_limitVelocity_le _, ?_⟩
  have hbound := norm_limitVelocity_le ⟨p.velocity.x, p.velocity.y + GRAVITY * dt⟩
  simp only [Particle.update]
  refine le_trans ?_ hbound
  split_ifs <;>
    exact norm_le_of_abs_le (by first | exact le_refl _ | exact abs_damp_le _)
      (by first | exact le_refl _ | exact abs_damp_le _)

/-- Witness for `velocity_clamp_invariant` at a concrete particle and
`dt = 1`. -/
theorem velocity_clamp_invariant_witness :
    Vec2.norm (((⟨⟨600, 400⟩, ⟨0, 0⟩, 1, (0, 0, 0), 1⟩ : Particle).update 1).velocity) ≤
      MAX_SPEED :=
  (velocity_clamp_invariant ⟨⟨600, 400⟩, ⟨0, 0⟩, 1, (0, 0, 0), 1⟩ 1 (by norm_num)).2

/-- Evaluation of `Particle.update` in the case where neither the speed
clamp nor any boundary check triggers. -/
lemma update_no_clamp_no_bounce (p : Particle) (dt : ℝ)
    (hs : p.velocity.x * p.velocity.x +
        (p.velocity.y + GRAVITY * dt) * (p.velocity.y + GRAVITY * dt) ≤
        MAX_SPEED * MAX_SPEED)
    (h1 : ¬ p.position.x + p.velocity.x * dt - p.radius < 0)
    (h2 : ¬ p.position.x + p.velocity.x * dt + p.radius > WIDTH)
    (h3 : ¬ p.position.y + (p.velocity.y + GRAVITY * dt) * dt - p.radius < 0)
    (h4 : ¬ p.position.y + (p.velocity.y + GRAVITY * dt) * dt + p.radius > HEIGHT) :
    p.update dt =
      { p with
        position := ⟨p.position.x + p.velocity.x * dt,
                     p.position.y + (p.velocity.y + GRAVITY * dt) * dt⟩
        velocity := ⟨p.velocity.x, p.velocity.y + GRAVITY * dt⟩ } := by
  simp only [Particle.update]
  rw [limit_id ⟨p.velocity.x, p.velocity.y + GRAVITY * dt⟩ hs]
  dsimp only
  rw [if_neg h1, if_neg h2, if_neg h3, if_neg h4]

/-- C5 (amended): boundary containment holds after every `Particle.update`
call provided the particle's diameter fits in the simulation area
(`2·radius ≤ WIDTH` and `2·radius ≤ HEIGHT`). -/
theorem boundary_containment (p : Particle) (dt : ℝ)
    (hw : 2 * p.radius ≤ WIDTH) (hh : 2 * p.radius ≤ HEIGHT) :
    p.radius ≤ (p.update dt).position.x ∧
    (p.update dt).position.x ≤ WIDTH - p.radius ∧
    p.radius ≤ (p.update dt).position.y ∧
    (p.update dt).position.y ≤ HEIGHT - p.radius := by
  simp only [Particle.update]
  split_ifs <;> dsimp only <;> refine ⟨?_, ?_, ?_, ?_⟩ <;> linarith

/-- Witness for `boundary_containment` at a concrete particle and
`dt = 1`. -/
theorem boundary_containment_witness :
    (1 : ℝ) ≤ (((⟨⟨600, 400⟩, ⟨0, 0⟩, 1, (0, 0, 0), 1⟩ : Particle).update 1)).position.x :=
  (boundary_containment ⟨⟨600, 400⟩, ⟨0, 0⟩, 1, (0, 0, 0), 1⟩ 1
    (by norm_num [WIDTH]) (by norm_num [HEIGHT])).1

/-- Counterexample to C5 as stated: a particle of radius 500 (diameter
larger than `HEIGHT`) at the origin with zero velocity ends
`Particle.update(0)` at `position.y = 500 > HEIGHT - radius = 300`, so the
claimed containment fails without a bound on the radius. -/
theorem boundary_containment_large_radius_cex :
    ¬ (((⟨⟨0, 0⟩, ⟨0, 0⟩, 500, (0, 0, 0), 250000⟩ : Particle).update 0).position.y ≤
        HEIGHT - (⟨⟨0, 0⟩, ⟨0, 0⟩, 500, (0, 0, 0), 250000⟩ : Particle).radius) := by
  simp only [Particle.update]
  rw [limit_id ⟨(0:ℝ), 0 + GRAVITY * 0⟩ (by norm_num [GRAVITY, MAX_SPEED])]
  dsimp only
  rw [if_pos (by norm_num)]
  norm_num [HEIGHT]

/-- Setting an index of a list to the element already stored there is the
identity. -/
lemma set_get_self {α : Type} : ∀ (l : List α) (i : ℕ) (a : α),
    l.get? i = some a → l.set i a = l
  | [], _, _, h => by simp at h
  | x :: xs, 0, a, h => by simp_all
  | x :: xs, i + 1, a, h => by
      simp only [List.get?_cons_succ] at h
      simp [set_get_self xs i a h]

/-- A particle with a squared speed within the clamp bound that lies within
the boundary box is a fixed point of `Particle.update(0)`. -/
lemma update_zero_fixed (p : Particle) (hs : Vec2.norm p.velocity ≤ MAX_SPEED)
    (hx1 : p.radius ≤ p.position.x) (hx2 : p.position.x ≤ WIDTH - p.radius)
    (hy1 : p.radius ≤ p.position.y) (hy2 : p.position.y ≤ HEIGHT - p.radius) :
    p.update 0 = p := by
  have hsq : p.velocity.x * p.velocity.x + p.velocity.y * p.velocity.y ≤
      MAX_SPEED * MAX_SPEED := by
    have h0 : 0 ≤ p.velocity.x * p.velocity.x + p.velocity.y * p.velocity.y :=
      add_nonneg (mul_self_nonneg _) (mul_self_nonneg _)
    have := mul_self_le_mul_self (Real.sqrt_nonneg _) hs
    rwa [Real.mul_self_sqrt h0] at this
  rw [update_no_clamp_no_bounce p 0 (by simpa using hsq)
    (by simp; nlinarith) (by simp; nlinarith) (by simp; nlinarith) (by simp; nlinarith)]
  have hpos : (⟨p.position.x + p.velocity.x * 0,
      p.position.y + (p.velocity.y + GRAVITY * 0) * 0⟩ : Vec2) = p.position := by
    ext <;> simp
  have hvel : (⟨p.velocity.x, p.velocity.y + GRAVITY * 0⟩ : Vec2) = p.velocity := by
    ext <;> simp
  rw [hpos, hvel]

/-- Zero impulse: `applyForce` with `dt = 0` leaves the particle unchanged. -/
lemma applyForce_zero_dt (p : Particle) (F : Vec2) : p.applyForce F 0 = p := by
  simp only [Particle.applyForce, zero_div, mul_zero, add_zero]

/-- One inner iteration of the force pass with `dt = 0` is the identity. -/
lemma forceStep_zero_dt (p q : Particle) : forceStep p q 0 = p := by
  unfold forceStep
  rcases appliedPairForce p q with _ | F
  · rfl
  · exact applyForce_zero_dt p F

/-- The whole inner force loop with `dt = 0` is the identity. -/
lemma forcesAux_zero_dt (i : ℕ) : ∀ (l : List Particle) (p : Particle) (j : ℕ),
    forcesAux i 0 p j l = p
  | [], _, _ => rfl
  | q :: rest, p, j => by
      simp only [forcesAux, forceStep_zero_dt, ite_self]
      exact forcesAux_zero_dt i rest p (j + 1)

/-- One outer iteration with `dt = 0` over a vector of calm particles is
the identity. -/
lemma stepAt_zero (ps : List Particle) (i : ℕ) (h : ∀ p ∈ ps, calmParticle p) :
    stepAt 0 ps i = ps := by
  unfold stepAt
  cases hg : ps.get? i with
  | none => rfl
  | some p =>
    have hp : p ∈ ps := List.get?_mem hg
    obtain ⟨h1, h2, h3, h4, h5⟩ := h p hp
    unfold forcesOn
    show ps.set i ((forcesAux i 0 p 0 ps).update 0) = ps
    rw [forcesAux_zero_dt, update_zero_fixed p h1 h2 h3 h4 h5,
      set_get_self ps i p hg]

/-- The whole outer loop with `dt = 0` over calm particles is the
identity. -/
lemma loopFrom_zero_dt (ps : List Particle) (h : ∀ p ∈ ps, calmParticle p) :
    ∀ (n i : ℕ), loopFrom 0 ps i n = ps
  | 0, _ => rfl
  | n + 1, i => by
      rw [loopFrom, stepAt_zero ps i h]
      exact loopFrom_zero_dt ps h n (i + 1)

/-- C7 (amended): `dt = 0` produces no motion for particles whose speed is
within `MAX_SPEED` and whose position lies within the boundary box: such a
particle is a fixed point of `Particle.update(0)`, and a collection of such
particles (with positive masses) is left unchanged by the particle phase of
`ParticleSystem.update(0)` (`dt` is only ever multiplied, never divided
by).  A particle whose speed exceeds `MAX_SPEED`, or which starts outside
the boundary box, is still clamped at `dt = 0`. -/
theorem zero_dt_no_motion :
    (∀ p : Particle, calmParticle p → p.update 0 = p) ∧
    (∀ ps : List Particle, (∀ p ∈ ps, 0 < p.mass ∧ calmParticle p) →
      sysUpdateParticles ps 0 = ps) := by
  constructor
  · intro p ⟨h1, h2, h3, h4, h5⟩
    exact update_zero_fixed p h1 h2 h3 h4 h5
  · intro ps h
    exact loopFrom_zero_dt ps (fun p hp => (h p hp).2) ps.length 0

/-- Witness for `zero_dt_no_motion`: a singleton system with a calm
particle is unchanged by the particle phase of `update(0)`. -/
theorem zero_dt_no_motion_witness :
    sysUpdateParticles [⟨⟨600, 400⟩, ⟨0, 0⟩, 1, (0, 0, 0), 1⟩] 0 =
      [⟨⟨600, 400⟩, ⟨0, 0⟩, 1, (0, 0, 0), 1⟩] := by
  apply zero_dt_no_motion.2
  intro p hp
  rw [List.mem_singleton] at hp
  subst hp
  refine ⟨by norm_num, ?_, by norm_num [WIDTH], by norm_num [WIDTH],
    by norm_num [HEIGHT], by norm_num [HEIGHT]⟩
  show Real.sqrt ((0:ℝ) * 0 + 0 * 0) ≤ MAX_SPEED
  rw [show (0:ℝ) * 0 + 0 * 0 = 0 by norm_num, Real.sqrt_zero]
  norm_num [MAX_SPEED]

/-- Counterexample to C7 as stated: a particle with velocity `(600, 0)`
(speed above `MAX_SPEED`) does not keep its velocity under
`Particle.update(0)` — the clamp rescales it to `(500, 0)` even though
`dt = 0`. -/
theorem zero_dt_rescale_cex :
    ((⟨⟨600, 400⟩, ⟨600, 0⟩, 5, (0, 0, 0), 25⟩ : Particle).update 0).velocity ≠
      (⟨⟨600, 400⟩, ⟨600, 0⟩, 5, (0, 0, 0), 25⟩ : Particle).velocity := by
  have harg : ((600:ℝ) * 600 + (0 + GRAVITY * 0) * (0 + GRAVITY * 0)) = 360000 := by
    norm_num [GRAVITY]
  have hq : limitVelocity ⟨600, 0 + GRAVITY * 0⟩ = ⟨500, 0⟩ := by
    unfold limitVelocity
    dsimp only
    rw [harg, sqrt_eval (b := 600) (by norm_num) (by norm_num),
      if_pos (by norm_num [MAX_SPEED])]
    ext <;> norm_num [MAX_SPEED, GRAVITY]
  simp only [Particle.update, hq]
  rw [if_neg (by norm_num [GRAVITY]), if_neg (by norm_num [WIDTH]),
    if_neg (by norm_num [GRAVITY]), if_neg (by norm_num [HEIGHT])]
  intro h
  have := congrArg Vec2.x h
  norm_num at this

/-- A zero direction vector forces the distance to zero. -/
lemma distTo_eq_zero_of_eq {p q : Vec2} (hx : q.x - p.x = 0) (hy : q.y - p.y = 0) :
    distTo p q = 0 := by
  unfold distTo
  rw [hx, hy]
  simp

/-- C3 (amended): in the pairwise pass a force is applied to the acting
particle iff the center distance `d` satisfies `0 < d < 100`; the applied
force is `(direction / d) * (ATTRACTION/d² - REPULSION/d)`; and within the
interaction range the applied force is the zero vector exactly at the
crossover distance `d = ATTRACTION / REPULSION = 5` (where the strength
changes sign), being non-zero at every other distance strictly between 0
and 100. -/
theorem pairwise_force_characterization (p q : Particle) :
    ((appliedPairForce p q).isSome ↔
      0 < distTo p.position q.position ∧ distTo p.position q.position < 100) ∧
    (∀ F, appliedPairForce p q = some F →
      F = ⟨(q.position.x - p.position.x) / distTo p.position q.position *
             (ATTRACTION /
                (distTo p.position q.position * distTo p.position q.position) -
              REPULSION / distTo p.position q.position),
           (q.position.y - p.position.y) / distTo p.position q.position *
             (ATTRACTION /
                (distTo p.position q.position * distTo p.position q.position) -
              REPULSION / distTo p.position q.position)⟩) ∧
    ATTRACTION / REPULSION = (5 : ℝ) ∧
    (0 < distTo p.position q.position → distTo p.position q.position < 100 →
      (appliedPairForce p q = some ⟨0, 0⟩ ↔
        distTo p.position q.position = ATTRACTION / REPULSION)) := by
  refine ⟨?_, ?_, by norm_num [ATTRACTION, REPULSION], ?_⟩
  · unfold appliedPairForce
    split_ifs with h
    · simpa using h
    · simpa using h
  · intro F hF
    unfold appliedPairForce at hF
    split_ifs at hF with h
    · exact (Option.some_inj.mp hF).symm
  · intro h1 h2
    have hne : distTo p.position q.position ≠ 0 := ne_of_gt h1
    unfold appliedPairForce
    rw [if_pos ⟨h1, h2⟩, Option.some_inj, Vec2.mk.injEq]
    constructor
    · rintro ⟨hx, hy⟩
      by_cases hs : ATTRACTION /
          (distTo p.position q.position * distTo p.position q.position) -
          REPULSION / distTo p.position q.position = 0
      · -- strength zero forces the crossover distance
        have hA : ATTRACTION = REPULSION * distTo p.position q.position := by
          field_simp at hs
          have h' : distTo p.position q.position *
              (ATTRACTION - REPULSION * distTo p.position q.position) = 0 := by
            linear_combination hs
          rcases mul_eq_zero.mp h' with h0 | h0
          · exact absurd h0 hne
          · linarith
        rw [hA]
        field_simp [REPULSION]
      · -- otherwise both direction components vanish, contradicting d > 0
        exfalso
        rcases mul_eq_zero.mp hx with hx' | hs'
        · rcases mul_eq_zero.mp hy with hy' | hs''
          · rcases div_eq_zero_iff.mp hx' with hx'' | hd
            · rcases div_eq_zero_iff.mp hy' with hy'' | hd
              · exact h1.ne' (distTo_eq_zero_of_eq hx'' hy'')
              · exact hne hd
            · exact hne hd
          · exact hs hs''
        · exact hs hs'
    · intro hd
      have hs : ATTRACTION /
          (distTo p.position q.position * distTo p.position q.position) -
          REPULSION / distTo p.position q.position = 0 := by
        rw [hd]
        norm_num [ATTRACTION, REPULSION]
      rw [hs]
      constructor <;> ring

/-- Witness for `pairwise_force_characterization`: at center distance 10
the applied pairwise force is the zero vector iff 10 is the crossover
distance (it is not). -/
theorem pairwise_force_characterization_witness :
    appliedPairForce ⟨⟨0, 0⟩, ⟨0, 0⟩, 1, (0, 0, 0), 1⟩
        ⟨⟨10, 0⟩, ⟨0, 0⟩, 1, (0, 0, 0), 1⟩ = some ⟨0, 0⟩ ↔
      distTo ⟨0, 0⟩ ⟨10, 0⟩ = ATTRACTION / REPULSION := by
  have hd : distTo (⟨0, 0⟩ : Vec2) ⟨10, 0⟩ = 10 := by
    unfold distTo
    exact sqrt_eval (b := 10) (by norm_num) (by norm_num)
  exact (pairwise_force_characterization ⟨⟨0, 0⟩, ⟨0, 0⟩, 1, (0, 0, 0), 1⟩
    ⟨⟨10, 0⟩, ⟨0, 0⟩, 1, (0, 0, 0), 1⟩).2.2.2
    (by rw [show distTo (⟨⟨0, 0⟩, ⟨0, 0⟩, 1, (0, 0, 0), 1⟩ : Particle).position
          (⟨⟨10, 0⟩, ⟨0, 0⟩, 1, (0, 0, 0), 1⟩ : Particle).position = 10 from hd]; norm_num)
    (by rw [show distTo (⟨⟨0, 0⟩, ⟨0, 0⟩, 1, (0, 0, 0), 1⟩ : Particle).position
          (⟨⟨10, 0⟩, ⟨0, 0⟩, 1, (0, 0, 0), 1⟩ : Particle).position = 10 from hd]; norm_num)

/-- Counterexample to C3 as stated: at center distance 5 — strictly between
0 and 100 — the pairwise pass applies a force (the guard holds), but the
applied force is the zero vector, because the strength
`ATTRACTION/25 - REPULSION/5` vanishes at the crossover. -/
theorem pairwise_force_zero_at_crossover :
    appliedPairForce ⟨⟨0, 0⟩, ⟨0, 0⟩, 1, (0, 0, 0), 1⟩
        ⟨⟨5, 0⟩, ⟨0, 0⟩, 1, (0, 0, 0), 1⟩ = some ⟨0, 0⟩ ∧
      (0 : ℝ) < 5 ∧ distTo ⟨0, 0⟩ ⟨5, 0⟩ = 5 ∧ (5 : ℝ) < 100 := by
  have hd : distTo (⟨0, 0⟩ : Vec2) ⟨5, 0⟩ = 5 := by
    unfold distTo
    exact sqrt_eval (b := 5) (by norm_num) (by norm_num)
  refine ⟨?_, by norm_num, hd, by norm_num⟩
  unfold appliedPairForce
  show (if 0 < distTo ⟨0, 0⟩ ⟨5, 0⟩ ∧ distTo ⟨0, 0⟩ ⟨5, 0⟩ < 100 then _ else _) = _
  rw [hd, if_pos (by norm_num)]
  rw [Option.some_inj, Vec2.mk.injEq]
  norm_num [ATTRACTION, REPULSION]

/-- C9 (amended): the division by distance in the force pass occurs only
under the guard `distance > 0`; the constructor performs no rejection or
clamping but sets `mass = radius²`, so radius positivity implies mass
positivity; and every particle the program actually constructs through
`addParticlesAtMouse` has radius at least 3 and hence mass at least 9, so
the division by mass in `applyForce` is safe for them. -/
theorem division_guards :
    (∀ p q : Particle,
      (appliedPairForce p q).isSome → 0 < distTo p.position q.position) ∧
    (∀ (x y r : ℝ) (c1 c2 c3 : ℕ),
      (Particle.create x y r c1 c2 c3).mass = r * r ∧
      (0 < r → 0 < (Particle.create x y r c1 c2 c3).mass)) ∧
    (∀ (rng : ℕ → ℕ) (mp : Vec2) (i : ℕ),
      3 ≤ (spawnOne rng mp i).radius ∧ 9 ≤ (spawnOne rng mp i).mass) := by
  refine ⟨?_, ?_, ?_⟩
  · intro p q h
    unfold appliedPairForce at h
    split_ifs at h with hg
    · exact hg.1
    · simp at h
  · intro x y r c1 c2 c3
    exact ⟨rfl, fun hr => mul_pos hr hr⟩
  · intro rng mp i
    have hr : (3 : ℝ) ≤ 3 + (rng (6 * i + 2) : ℝ) / (RAND_MAX : ℝ) * 5 := by
      have h0 : (0 : ℝ) ≤ (rng (6 * i + 2) : ℝ) / (RAND_MAX : ℝ) * 5 := by positivity
      linarith
    refine ⟨hr, ?_⟩
    show (9 : ℝ) ≤ (3 + (rng (6 * i + 2) : ℝ) / (RAND_MAX : ℝ) * 5) *
      (3 + (rng (6 * i + 2) : ℝ) / (RAND_MAX : ℝ) * 5)
    nlinarith [hr]

/-- Witness for `division_guards`: a particle constructed with radius 2 has
positive mass. -/
theorem division_guards_witness : 0 < (Particle.create 0 0 2 0 0 0).mass :=
  (division_guards.2.1 0 0 2 0 0 0).2 (by norm_num)

/-- Counterexample to C9 as stated: the constructor accepts radius 0
unchanged — it neither rejects nor clamps a non-positive radius — and the
resulting mass is 0, not positive. -/
theorem zero_radius_construction_cex :
    (Particle.create 0 0 0 0 0 0).mass = 0 ∧
    (Particle.create 0 0 0 0 0 0).radius = 0 := by
  constructor <;> norm_num [Particle.create]

/-- The regenerated connection list is a pure function of the particle
positions. -/
lemma updateConnections_eq_spec (ps : List Particle) :
    updateConnections ps = specConnections (ps.map Particle.position) := by
  induction ps with
  | nil => rfl
  | cons p rest ih =>
      simp only [updateConnections, List.map_cons, specConnections, ih,
        List.map_map, Function.comp]
      rfl

/-- C6 (amended): after regeneration the connection list is a pure
function of the current particle positions — it is exactly the list that,
for every unordered pair `i < j` of positions with center distance below
100, contains one segment (two vertices) between the two positions, both
endpoints white with the identical alpha; the stored alpha is the byte
truncation `⌊255·(1 - d/100)⌋` of the spec's linear formula, it is
non-increasing in the distance on `[0, 100)`, and the formula yields
exactly 0 at distance 100. -/
theorem connections_pure_of_positions :
    (∀ ps : List Particle,
      updateConnections ps = specConnections (ps.map Particle.position)) ∧
    (∀ d1 d2 : ℝ, 0 ≤ d1 → d1 ≤ d2 → d2 < 100 → alphaOf d2 ≤ alphaOf d1) ∧
    alphaOf 100 = 0 ∧
    (∀ v w : Vec2, connDist v w < 100 →
      connSeg v w = [⟨v, (255, 255, 255, alphaOf (connDist v w))⟩,
                     ⟨w, (255, 255, 255, alphaOf (connDist v w))⟩]) ∧
    (∀ v w : Vec2, ¬ connDist v w < 100 → connSeg v w = []) := by
  refine ⟨updateConnections_eq_spec, ?_, ?_, ?_, ?_⟩
  · intro d1 d2 _ h12 _
    unfold alphaOf
    apply Int.toNat_le_toNat
    apply Int.floor_le_floor
    nlinarith
  · norm_num [alphaOf]
  · intro v w h
    unfold connSeg
    rw [if_pos h]
  · intro v w h
    unfold connSeg
    rw [if_neg h]

/-- Witness for `connections_pure_of_positions`: the stored alpha at
distance 20 is at most the stored alpha at distance 10. -/
theorem connections_pure_of_positions_witness : alphaOf 20 ≤ alphaOf 10 :=
  connections_pure_of_positions.2.1 10 20 (by norm_num) (by norm_num) (by norm_num)

/-- Counterexample to C6 as stated: for two particles at distance 50 the
emitted vertices carry alpha 127 (the byte truncation), while the claimed
formula `255 * (1 - d/100)` gives 127.5 — the stored alpha is not equal to
the formula's value. -/
theorem connection_alpha_truncation_cex :
    updateConnections
        [⟨⟨0, 0⟩, ⟨0, 0⟩, 1, (0, 0, 0), 1⟩, ⟨⟨50, 0⟩, ⟨0, 0⟩, 1, (0, 0, 0), 1⟩] =
      [⟨⟨0, 0⟩, (255, 255, 255, 127)⟩, ⟨⟨50, 0⟩, (255, 255, 255, 127)⟩] ∧
    (127 : ℝ) ≠ 255 * (1 - connDist ⟨0, 0⟩ ⟨50, 0⟩ / 100) := by
  have hd : connDist (⟨0, 0⟩ : Vec2) ⟨50, 0⟩ = 50 := by
    unfold connDist
    rw [show (((0:ℝ) - 50) ^ 2 + ((0:ℝ) - 0) ^ 2) = 2500 by norm_num]
    exact sqrt_eval (b := 50) (by norm_num) (by norm_num)
  have ha : alphaOf 50 = 127 := by
    unfold alphaOf
    rw [show (255 * (1 - (50:ℝ) / 100)) = 127.5 by norm_num,
      show ⌊(127.5 : ℝ)⌋ = 127 from Int.floor_eq_iff.mpr (by norm_num)]
    rfl
  constructor
  · show (([⟨⟨50, 0⟩, ⟨0, 0⟩, 1, (0, 0, 0), 1⟩] : List Particle).map
        fun q => connSeg ⟨0, 0⟩ q.position).flatten ++
        updateConnections [⟨⟨50, 0⟩, ⟨0, 0⟩, 1, (0, 0, 0), 1⟩] = _
    simp only [List.map_cons, List.map_nil, updateConnections, List.flatten,
      List.append_nil]
    unfold connSeg
    rw [hd, if_pos (by norm_num), ha]
  · rw [hd]
    norm_num

/-- One force-pass iteration does not touch the immutable fields. -/
lemma immut_forceStep (p q : Particle) (dt : ℝ) :
    immut (forceStep p q dt) = immut p := by
  unfold forceStep
  cases appliedPairForce p q <;> rfl

/-- The inner force loop does not touch the immutable fields. -/
lemma immut_forcesAux (i : ℕ) (dt : ℝ) : ∀ (l : List Particle) (p : Particle) (j : ℕ),
    immut (forcesAux i dt p j l) = immut p
  | [], _, _ => rfl
  | q :: rest, p, j => by
      rw [forcesAux, immut_forcesAux i dt rest _ (j + 1)]
      by_cases h : j = i
      · rw [if_pos h]
      · rw [if_neg h, immut_forceStep]

/-- One outer iteration preserves the per-index immutable fields. -/
lemma map_immut_stepAt (dt : ℝ) (ps : List Particle) (i : ℕ) :
    (stepAt dt ps i).map immut = ps.map immut := by
  unfold stepAt
  cases hg : ps.get? i with
  | none => rfl
  | some p =>
    show (ps.set i ((forcesOn p i ps dt).update dt)).map immut = _
    rw [List.map_set]
    have h1 : immut ((forcesOn p i ps dt).update dt) = immut p := by
      show immut (forcesOn p i ps dt) = immut p
      unfold forcesOn
      exact immut_forcesAux i dt ps p 0
    rw [h1]
    exact set_get_self _ i _ (by rw [List.get?_map, hg]; rfl)

/-- The outer loop preserves the per-index immutable fields. -/
lemma map_immut_loopFrom (dt : ℝ) : ∀ (n : ℕ) (ps : List Particle) (i : ℕ),
    (loopFrom dt ps i n).map immut = ps.map immut
  | 0, _, _ => rfl
  | n + 1, ps, i => by
      rw [loopFrom, map_immut_loopFrom dt n _ (i + 1), map_immut_stepAt]

/-- C10: `Particle.update` and `Particle.applyForce` modify only position
and velocity — radius, mass and the stored base color are unchanged — and
the particle phase of `ParticleSystem.update` preserves the number of
particles and, per index, their immutable identity (no particle is added,
removed or reordered). -/
theorem update_preserves_immutables :
    (∀ (p : Particle) (dt : ℝ),
      (p.update dt).radius = p.radius ∧ (p.update dt).mass = p.mass ∧
        (p.update dt).baseColor = p.baseColor) ∧
    (∀ (p : Particle) (F : Vec2) (dt : ℝ),
      (p.applyForce F dt).radius = p.radius ∧ (p.applyForce F dt).mass = p.mass ∧
        (p.applyForce F dt).baseColor = p.baseColor) ∧
    (∀ (ps : List Particle) (dt : ℝ),
      (sysUpdateParticles ps dt).length = ps.length ∧
      (sysUpdateParticles ps dt).map immut = ps.map immut) := by
  refine ⟨fun p dt => ⟨rfl, rfl, rfl⟩, fun p F dt => ⟨rfl, rfl, rfl⟩, fun ps dt => ?_⟩
  have hmap : (sysUpdateParticles ps dt).map immut = ps.map immut :=
    map_immut_loopFrom dt ps.length ps 0
  refine ⟨?_, hmap⟩
  have := congrArg List.length hmap
  simpa using this

/-- A random draw scaled by `1 / RAND_MAX` lies in `[0, 1]`. -/
lemma draw_unit {rng : ℕ → ℕ} (h : ∀ k, rng k ≤ RAND_MAX) (k : ℕ) :
    0 ≤ (rng k : ℝ) / (RAND_MAX : ℝ) ∧ (rng k : ℝ) / (RAND_MAX : ℝ) ≤ 1 := by
  have hpos : (0 : ℝ) < (RAND_MAX : ℝ) := by norm_num [RAND_MAX]
  constructor
  · positivity
  · rw [div_le_one hpos]
    exact_mod_cast h k

/-- A spawned particle lies within 50 units of the mouse position. -/
lemma spawnOne_dist {rng : ℕ → ℕ} (h : ∀ k, rng k ≤ RAND_MAX) (mp : Vec2) (i : ℕ) :
    distTo mp (spawnOne rng mp i).position ≤ 50 := by
  obtain ⟨hd0, hd1⟩ := draw_unit h (6 * i + 1)
  set a : ℝ := (rng (6 * i) : ℝ) / (RAND_MAX : ℝ) * (2 * Real.pi) with ha
  set dd : ℝ := (rng (6 * i + 1) : ℝ) / (RAND_MAX : ℝ) * 50 with hdd
  have hdd0 : 0 ≤ dd := by rw [hdd]; positivity
  have hdd50 : dd ≤ 50 := by rw [hdd]; nlinarith
  show Real.sqrt ((mp.x + Real.cos a * dd - mp.x) * (mp.x + Real.cos a * dd - mp.x) +
      (mp.y + Real.sin a * dd - mp.y) * (mp.y + Real.sin a * dd - mp.y)) ≤ 50
  have hkey : (mp.x + Real.cos a * dd - mp.x) * (mp.x + Real.cos a * dd - mp.x) +
      (mp.y + Real.sin a * dd - mp.y) * (mp.y + Real.sin a * dd - mp.y) = dd * dd := by
    have hsc := Real.sin_sq_add_cos_sq a
    linear_combination (dd * dd) * hsc
  rw [hkey, Real.sqrt_mul_self hdd0]
  exact hdd50

/-- A spawned particle's radius lies in `[3, 8]`. -/
lemma spawnOne_radius {rng : ℕ → ℕ} (h : ∀ k, rng k ≤ RAND_MAX) (mp : Vec2) (i : ℕ) :
    3 ≤ (spawnOne rng mp i).radius ∧ (spawnOne rng mp i).radius ≤ 8 := by
  obtain ⟨h0, h1⟩ := draw_unit h (6 * i + 2)
  show (3 : ℝ) ≤ 3 + (rng (6 * i + 2) : ℝ) / (RAND_MAX : ℝ) * 5 ∧
    3 + (rng (6 * i + 2) : ℝ) / (RAND_MAX : ℝ) * 5 ≤ 8
  constructor <;> nlinarith

/-- C8 (amended): for every point, every count `n ≥ 0` and every sequence
of random draws bounded by `RAND_MAX`, `addParticlesAtMouse` appends
exactly `n` new particles, each at distance at most 50 from the point and
each with radius in the closed interval `[3, 8]` (the upper endpoint 8 is
attained when a draw equals `RAND_MAX`), leaving all pre-existing
particles unchanged. -/
theorem spawn_at_mouse_properties (ps : List Particle) (rng : ℕ → ℕ) (mp : Vec2)
    (n : ℕ) (h : ∀ k, rng k ≤ RAND_MAX) :
    (addParticlesAtMouse ps rng mp n).length = ps.length + n ∧
    (addParticlesAtMouse ps rng mp n).take ps.length = ps ∧
    ∀ q ∈ (addParticlesAtMouse ps rng mp n).drop ps.length,
      distTo mp q.position ≤ 50 ∧ 3 ≤ q.radius ∧ q.radius ≤ 8 := by
  unfold addParticlesAtMouse
  refine ⟨by simp, List.take_left ps _, ?_⟩
  rw [List.drop_left]
  intro q hq
  obtain ⟨i, _, rfl⟩ := List.mem_map.mp hq
  exact ⟨spawnOne_dist h mp i, (spawnOne_radius h mp i).1, (spawnOne_radius h mp i).2⟩

/-- Witness for `spawn_at_mouse_properties`: spawning one particle at
`(100, 100)` with the all-zero draw sequence yields a list of length 1. -/
theorem spawn_at_mouse_properties_witness :
    (addParticlesAtMouse [] (fun _ => 0) ⟨100, 100⟩ 1).length =
      ([] : List Particle).length + 1 :=
  (spawn_at_mouse_properties [] (fun _ => 0) ⟨100, 100⟩ 1
    (fun _ => Nat.zero_le _)).1

/-- Counterexample to C8 as stated: with every draw equal to `RAND_MAX`
(an admissible value of `rand()`), the single spawned particle has radius
exactly `3 + (RAND_MAX/RAND_MAX)·5 = 8`, which is outside the claimed
half-open interval `[3, 8)`. -/
theorem spawn_radius_eight_cex :
    (addParticlesAtMouse [] (fun _ => RAND_MAX) ⟨100, 100⟩ 1).map Particle.radius =
      [8] := by
  unfold addParticlesAtMouse spawnOne
  rw [show List.range 1 = [0] from rfl]
  simp only [List.map_cons, List.map_nil, List.nil_append]
  have h8 : (3 : ℝ) + (RAND_MAX : ℝ) / (RAND_MAX : ℝ) * 5 = 8 := by
    rw [div_self (by norm_num [RAND_MAX])]
    norm_num
  show [(3 : ℝ) + (RAND_MAX : ℝ) / (RAND_MAX : ℝ) * 5] = [(8 : ℝ)]
  rw [h8]

/-- Lookup at the length of the left part of an append hits the head of
the right part. -/
lemma get?_append_len {α : Type} : ∀ (l₁ : List α) (p : α) (l₂ : List α),
    (l₁ ++ p :: l₂).get? l₁.length = some p
  | [], _, _ => rfl
  | _ :: xs, p, l₂ => get?_append_len xs p l₂

/-- Setting at the length of the left part of an append replaces the head
of the right part. -/
lemma set_append_len {α : Type} : ∀ (l₁ : List α) (p x : α) (l₂ : List α),
    (l₁ ++ p :: l₂).set l₁.length x = l₁ ++ x :: l₂
  | [], _, _, _ => rfl
  | y :: ys, p, x, l₂ => by
      simp only [List.cons_append, List.length_cons, List.set_cons_succ,
        set_append_len ys p x l₂]

/-- The inner force loop splits over an append of the particle vector. -/
lemma forcesAux_append (i : ℕ) (dt : ℝ) :
    ∀ (l₁ l₂ : List Particle) (p : Particle) (j : ℕ),
      forcesAux i dt p j (l₁ ++ l₂) =
        forcesAux i dt (forcesAux i dt p j l₁) (j + l₁.length) l₂
  | [], l₂, p, j => by simp [forcesAux]
  | q :: rest, l₂, p, j => by
      simp only [List.cons_append, forcesAux, List.length_cons, List.append_eq]
      rw [forcesAux_append i dt rest l₂ _ (j + 1)]
      congr 1
      omega

/-- If the skipped index is not among the visited indices, the inner force
loop is a plain fold of `forceStep`. -/
lemma forcesAux_no_hit (i : ℕ) (dt : ℝ) :
    ∀ (l : List Particle) (p : Particle) (j : ℕ),
      (∀ m, m < l.length → j + m ≠ i) →
      forcesAux i dt p j l = l.foldl (fun a q => forceStep a q dt) p
  | [], _, _, _ => rfl
  | q :: rest, p, j, h => by
      rw [forcesAux, if_neg (by have := h 0 (by simp); omega), List.foldl_cons]
      exact forcesAux_no_hit i dt rest _ (j + 1)
        (fun m hm => by have := h (m + 1) (by simp only [List.length_cons]; omega); omega)

/-- One outer iteration of the force pass, acting at the boundary between
the already-updated prefix `done` and the pending suffix `p :: todo`:
the acting particle folds the forces from `done`, skips itself, folds the
forces from `todo`, and is then integrated in place. -/
lemma stepAt_append (dt : ℝ) (done : List Particle) (p : Particle)
    (todo : List Particle) :
    stepAt dt (done ++ p :: todo) done.length =
      done ++ (Particle.update
        (todo.foldl (fun a q => forceStep a q dt)
          (done.foldl (fun a q => forceStep a q dt) p)) dt) :: todo := by
  have hf : forcesOn p done.length (done ++ p :: todo) dt =
      todo.foldl (fun a q => forceStep a q dt)
        (done.foldl (fun a q => forceStep a q dt) p) := by
    unfold forcesOn
    rw [forcesAux_append done.length dt done (p :: todo) p 0,
      forcesAux_no_hit done.length dt done p 0 (fun m hm => by omega)]
    rw [forcesAux, if_pos (by omega)]
    rw [forcesAux_no_hit done.length dt todo _ (0 + done.length + 1)
      (fun m hm => by omega)]
  unfold stepAt
  rw [get?_append_len]
  show (done ++ p :: todo).set done.length
      ((forcesOn p done.length (done ++ p :: todo) dt).update dt) = _
  rw [hf, set_append_len]

/-- The source outer loop, started at the boundary between `done` and
`todo`, computes the interleaved pass. -/
lemma loop_interleave (dt : ℝ) : ∀ (todo done : List Particle),
    loopFrom dt (done ++ todo) done.length todo.length =
      interleavePass dt done todo
  | [], done => by simp [loopFrom, interleavePass]
  | p :: todo, done => by
      rw [show (p :: todo).length = todo.length + 1 from rfl, loopFrom,
        stepAt_append dt done p todo, interleavePass]
      rw [show done ++ (Particle.update
            (todo.foldl (fun a q => forceStep a q dt)
              (done.foldl (fun a q => forceStep a q dt) p)) dt) :: todo =
          (done ++ [Particle.update
            (todo.foldl (fun a q => forceStep a q dt)
              (done.foldl (fun a q => forceStep a q dt) p)) dt]) ++ todo by simp,
        show done.length + 1 = (done ++ [Particle.update
            (todo.foldl (fun a q => forceStep a q dt)
              (done.foldl (fun a q => forceStep a q dt) p)) dt]).length by simp]
      exact loop_interleave dt todo _

/-- C1 (amended): `ParticleSystem.update(dt)` is interleaved, not
two-phase — it processes particles in collection order, giving each
particle all its pairwise forces from the live state (already-updated
earlier particles and not-yet-updated later particles) and integrating it
immediately, before the next particle's forces are computed; afterwards
the connection list is regenerated purely from the resulting positions. -/
theorem system_update_interleaved :
    (∀ (ps : List Particle) (dt : ℝ),
      sysUpdateParticles ps dt = interleavePass dt [] ps) ∧
    (∀ (s : ParticleSystem) (dt : ℝ),
      (s.update dt).particles = interleavePass dt [] s.particles ∧
      (s.update dt).connections =
        specConnections (((s.update dt).particles).map Particle.position)) := by
  have h : ∀ (ps : List Particle) (dt : ℝ),
      sysUpdateParticles ps dt = interleavePass dt [] ps := by
    intro ps dt
    have h0 := loop_interleave dt ps []
    simpa [sysUpdateParticles] using h0
  refine ⟨h, fun s dt => ⟨h s.particles dt, ?_⟩⟩
  show updateConnections (sysUpdateParticles s.particles dt) = _
  rw [updateConnections_eq_spec]
  rfl

lemma cex_hd01 : distTo cexP0.position cexP1.position = 10 := by
  show distTo ⟨600, 300⟩ ⟨600, 310⟩ = 10
  unfold distTo
  rw [show ((600:ℝ) - 600) * (600 - 600) + ((310:ℝ) - 300) * (310 - 300) = 100
    by norm_num]
  exact sqrt_eval (b := 10) (by norm_num) (by norm_num)

lemma cex_hF01 : appliedPairForce cexP0 cexP1 = some ⟨0, -(1/2)⟩ := by
  unfold appliedPairForce
  rw [cex_hd01, if_pos (by norm_num), Option.some_inj]
  apply Vec2.ext <;> norm_num [cexP0, cexP1, ATTRACTION, REPULSION]

lemma cex_hfs0 : forceStep cexP0 cexP1 1 = cexP0a := by
  unfold forceStep
  rw [cex_hF01]
  show cexP0.applyForce ⟨0, -(1/2)⟩ 1 = cexP0a
  unfold Particle.applyForce
  apply Particle.ext <;> norm_num [cexP0, cexP0a]

lemma cex_hu0 : cexP0a.update 1 = cexP0u := by
  rw [update_no_clamp_no_bounce cexP0a 1
    (by norm_num [cexP0a, GRAVITY, MAX_SPEED])
    (by norm_num [cexP0a]) (by norm_num [cexP0a, WIDTH])
    (by norm_num [cexP0a, GRAVITY]) (by norm_num [cexP0a, GRAVITY, HEIGHT])]
  apply Particle.ext <;> try rfl
  · apply Vec2.ext <;> norm_num [cexP0a, cexP0u, GRAVITY]
  · apply Vec2.ext <;> norm_num [cexP0a, cexP0u, GRAVITY]

lemma cex_hstepA : stepAt 1 [cexP0, cexP1] 0 = [cexP0u, cexP1] := by
  have hrfl : stepAt 1 [cexP0, cexP1] 0 =
      [(forceStep cexP0 cexP1 1).update 1, cexP1] := rfl
  rw [hrfl, cex_hfs0, cex_hu0]

lemma cex_hd10 : distTo cexP1.position cexP0u.position = 0.69 := by
  show distTo ⟨600, 310⟩ ⟨600, 309.31⟩ = 0.69
  unfold distTo
  rw [show ((600:ℝ) - 600) * (600 - 600) + ((309.31:ℝ) - 310) * (309.31 - 310) =
    0.4761 by norm_num]
  exact sqrt_eval (b := 0.69) (by norm_num) (by norm_num)

lemma cex_hF10 : appliedPairForce cexP1 cexP0u = some ⟨0, -(431000/4761)⟩ := by
  unfold appliedPairForce
  rw [cex_hd10, if_pos (by norm_num), Option.some_inj]
  apply Vec2.ext <;> norm_num [cexP1, cexP0u, ATTRACTION, REPULSION]

lemma cex_hfs1 : forceStep cexP1 cexP0u 1 = cexP1a := by
  unfold forceStep
  rw [cex_hF10]
  show cexP1.applyForce ⟨0, -(431000/4761)⟩ 1 = cexP1a
  unfold Particle.applyForce
  apply Particle.ext <;> norm_num [cexP1, cexP1a]

lemma cex_hu1 : cexP1a.update 1 = cexP1u := by
  rw [update_no_clamp_no_bounce cexP1a 1
    (by norm_num [cexP1a, GRAVITY, MAX_SPEED])
    (by norm_num [cexP1a]) (by norm_num [cexP1a, WIDTH])
    (by norm_num [cexP1a, GRAVITY]) (by norm_num [cexP1a, GRAVITY, HEIGHT])]
  apply Particle.ext <;> try rfl
  · apply Vec2.ext <;> norm_num [cexP1a, cexP1u, GRAVITY]
  · apply Vec2.ext <;> norm_num [cexP1a, cexP1u, GRAVITY]

lemma cex_hstepB : stepAt 1 [cexP0u, cexP1] 1 = [cexP0u, cexP1u] := by
  have hrfl : stepAt 1 [cexP0u, cexP1] 1 =
      [cexP0u, (forceStep cexP1 cexP0u 1).update 1] := rfl
  rw [hrfl, cex_hfs1, cex_hu1]

lemma cex_hd10b : distTo cexP1.position cexP0.position = 10 := by
  show distTo ⟨600, 310⟩ ⟨600, 300⟩ = 10
  unfold distTo
  rw [show ((600:ℝ) - 600) * (600 - 600) + ((300:ℝ) - 310) * (300 - 310) = 100
    by norm_num]
  exact sqrt_eval (b := 10) (by norm_num) (by norm_num)

lemma cex_hF10b : appliedPairForce cexP1 cexP0 = some ⟨0, 1/2⟩ := by
  unfold appliedPairForce
  rw [cex_hd10b, if_pos (by norm_num), Option.some_inj]
  apply Vec2.ext <;> norm_num [cexP0, cexP1, ATTRACTION, REPULSION]

lemma cex_hfs1b : forceStep cexP1 cexP0 1 = cexP1b := by
  unfold forceStep
  rw [cex_hF10b]
  show cexP1.applyForce ⟨0, 1/2⟩ 1 = cexP1b
  unfold Particle.applyForce
  apply Particle.ext <;> norm_num [cexP1, cexP1b]

lemma cex_hu1b : cexP1b.update 1 = cexP1v := by
  rw [update_no_clamp_no_bounce cexP1b 1
    (by norm_num [cexP1b, GRAVITY, MAX_SPEED])
    (by norm_num [cexP1b]) (by norm_num [cexP1b, WIDTH])
    (by norm_num [cexP1b, GRAVITY]) (by norm_num [cexP1b, GRAVITY, HEIGHT])]
  apply Particle.ext <;> try rfl
  · apply Vec2.ext <;> norm_num [cexP1b, cexP1v, GRAVITY]
  · apply Vec2.ext <;> norm_num [cexP1b, cexP1v, GRAVITY]

/-- Counterexample to C1 as stated: on the two-particle collection
`[cexP0, cexP1]` with `dt = 1`, the source update (which integrates
particle 0 before computing particle 1's forces, so particle 1 sees
particle 0's already-updated position at distance 0.69) produces a state
different from the claimed two-phase algorithm (where particle 1's force is
computed from the frozen snapshot at distance 10). -/
theorem system_update_not_two_phase :
    sysUpdateParticles [cexP0, cexP1] 1 ≠ twoPhaseUpdate [cexP0, cexP1] 1 := by
  have hLHS : sysUpdateParticles [cexP0, cexP1] 1 = [cexP0u, cexP1u] := by
    have hloop : sysUpdateParticles [cexP0, cexP1] 1 =
        stepAt 1 (stepAt 1 [cexP0, cexP1] 0) 1 := rfl
    rw [hloop, cex_hstepA, cex_hstepB]
  have hRHS : twoPhaseUpdate [cexP0, cexP1] 1 = [cexP0u, cexP1v] := by
    have hr : twoPhaseUpdate [cexP0, cexP1] 1 =
        [(forceStep cexP0 cexP1 1).update 1, (forceStep cexP1 cexP0 1).update 1] := rfl
    rw [hr, cex_hfs0, cex_hu0, cex_hfs1b, cex_hu1b]
  rw [hLHS, hRHS]
  intro h
  simp only [List.cons.injEq] at h
  obtain ⟨-, h2, -⟩ := h
  have h3 := congrArg (fun p => p.position.y) h2
  norm_num [cexP1u, cexP1v] at h3

end PSim
